import Mathlib

/-!
Shallow embedding of the core of the version-number-updater repository
(src/resolve-version-number.js, module variant in the repository's core file):
the functions getCurrentVersion, bumpPatchVersion, stripPrerelease,
calculateBumpVersion, validateSemver and resolveVersion, together with a
state model of the backing record (package.json) and of the external
calculator invoked through execSync.  File-system and JSON builtins that
the code calls are modelled explicitly; the JS Number coercion is modelled
on the fragment the code exercises (decimal digit strings, where a JS
double is exact below 2^53) and sends every other string to NaN.
-/

namespace VersionUpdater

/-! ### Models of the JavaScript string builtins used by the code -/

/-- Model of the JS String.prototype.split with a single-character
separator: splits the character list at every occurrence of the
separator.  Like the JS builtin, it never returns an empty list, and
adjacent separators yield empty segments. -/
def splitChar (sep : Char) : List Char → List (List Char)
  | [] => [[]]
  | c :: cs =>
    if c = sep then [] :: splitChar sep cs
    else
      match splitChar sep cs with
      | [] => [[c]]
      | h :: t => (c :: h) :: t

/-- String-level wrapper for `splitChar`: the model of `s.split(sep)`. -/
def jsSplit (sep : Char) (s : String) : List String :=
  (splitChar sep s.data).map fun l => String.mk l

/-- Model of JS String.prototype.toLowerCase on the ASCII fragment the
code compares against (the symbolic command words are all ASCII). -/
def jsToLower (s : String) : String :=
  String.mk (s.data.map Char.toLower)

/-! ### Model of the JS double-precision numbers the code computes with

The code's `Number`, `parseInt` and template interpolation all go through
IEEE-754 doubles.  All numbers arising here are non-negative integers, so
a double is modelled as either an exact integer value (every integral
double value is a natural number) or Infinity; coercion of a digit string
rounds its value to the nearest double (round half to even, exact below
2^53, Infinity once the rounded value reaches 2^1024), and rendering uses
plain decimal below 10^21 and exponential notation with the shortest
round-tripping significand from there on, exactly as the JS ToString of a
number does. -/

/-- The mathematical value of a decimal digit list (most significant
digit first) — what the code's digit strings denote before any double
rounding. -/
def digitsVal (l : List Char) : Nat :=
  l.foldl (fun a c => a * 10 + (c.toNat - 48)) 0

/-- Decimal digit list of a natural number, most significant first.  The
fuel list only bounds the recursion depth: 400 digits cover every value
a finite double can take (doubles overflow below 10^309). -/
def natToDigitsAux : List Unit → Nat → List Char → List Char
  | [], _, acc => acc
  | _ :: fs, n, acc =>
    let acc2 := Char.ofNat (48 + n % 10) :: acc
    if n < 10 then acc2 else natToDigitsAux fs (n / 10) acc2

/-- Decimal digit list of a natural number below 10^400. -/
def natToDigits (n : Nat) : List Char :=
  natToDigitsAux (List.replicate 400 ()) n []

/-- Canonical decimal numeral of a natural number below 10^400. -/
def natStr (n : Nat) : String :=
  String.mk (natToDigits n)

/-- An integral JS double: a finite (exact) non-negative integer value,
or Infinity. -/
inductive JsNum where
  | finite : Nat → JsNum
  | infinity : JsNum
deriving Repr, DecidableEq

/-- Number of halvings needed to bring a value below 2^53 (the bit length
minus 53).  The fuel list of 1100 units covers every value below 2^1100;
larger values stop at 1100 halvings, which still lands in the Infinity
branch of `roundToDouble` below, as IEEE-754 demands for them. -/
def findKAux : List Unit → Nat → Nat → Nat
  | [], _, k => k
  | _ :: fs, v, k => if v < 2 ^ 53 then k else findKAux fs (v / 2) (k + 1)

/-- Rounds a natural number to the nearest IEEE-754 double, as every JS
arithmetic result is rounded: exact below 2^53, rounded to 53 significant
bits (ties to even) above, and Infinity once the rounded value reaches
2^1024. -/
def roundToDouble (v : Nat) : JsNum :=
  if v < 2 ^ 53 then JsNum.finite v
  else
    let k := findKAux (List.replicate 1100 ()) v 0
    let q := v / 2 ^ k
    let r := v % 2 ^ k
    let half := 2 ^ (k - 1)
    let q2 := if half < r ∨ (r = half ∧ q % 2 = 1) then q + 1 else q
    let w := q2 * 2 ^ k
    if w < 2 ^ 1024 then JsNum.finite w else JsNum.infinity

/-- Model of the JS `+ 1` on a double: the exact successor rounded back
to a double (so values at and above 2^53 can stay unchanged), and
Infinity absorbs the increment. -/
def jsAdd1 : JsNum → JsNum
  | JsNum.finite v => roundToDouble (v + 1)
  | JsNum.infinity => JsNum.infinity

/-- Strips trailing zero digits (used for the exponential significand). -/
def stripTrailingZeros (l : List Char) : List Char :=
  (l.reverse.dropWhile (fun c => c = '0')).reverse

/-- Renders an exponential-notation significand the way JS does: the
leading digit, then a point and the remaining digits with trailing zeros
removed, or the leading digit alone. -/
def sigString (c : Nat) : String :=
  match natToDigits c with
  | [] => "0"
  | d :: ds =>
    match stripTrailingZeros ds with
    | [] => String.mk [d]
    | ds2 => String.mk (d :: '.' :: ds2)

/-- Rounds the L-digit value v to p significant decimal digits (nearest,
half up), returning the significand and its power-of-ten multiplier. -/
def expCandidate (v L p : Nat) : Nat × Nat :=
  let m := 10 ^ (L - p)
  let c := (v + m / 2) / m
  if c < 10 ^ p then (c, L - p) else (c / 10, L - p + 1)

/-- Exponential rendering of an integral double value at or above 10^21,
following the JS ToString of a number: the shortest significand (1 to 17
digits) whose decimal value rounds back to the same double, written as
d.dddde+EE.  The nearest candidate at each length is chosen with ties
rounding up; an engine may pick the other side of an exact tie, a corner
no theorem below depends on — the theorems use only the characters this
rendering can contain. -/
def expRender (v : Nat) : String :=
  let L := (natToDigits v).length
  let pick := (List.range 17).foldl
    (fun best i =>
      match best with
      | some _ => best
      | none =>
        let cand := expCandidate v L (i + 1)
        if roundToDouble (cand.1 * 10 ^ cand.2) = JsNum.finite v then
          some cand
        else none)
    none
  match pick with
  | some cand =>
    sigString cand.1 ++ "e+" ++ natStr (cand.2 + (natToDigits cand.1).length - 1)
  | none =>
    let cand := expCandidate v L 17
    sigString cand.1 ++ "e+" ++ natStr (cand.2 + (natToDigits cand.1).length - 1)

/-- The JS ToString of an integral double: plain decimal below 10^21,
exponential notation from there, and the word Infinity. -/
def renderJsNum : JsNum → String
  | JsNum.finite w => if w < 10 ^ 21 then natStr w else expRender w
  | JsNum.infinity => "Infinity"

/-- The ASCII part of the whitespace the JS Number coercion strips from
both ends of its input (the full grammar also strips Unicode spaces,
which the repository's version strings cannot contain). -/
def jsWhitespace (c : Char) : Bool :=
  c = ' ' || c = '\t' || c = '\n' || c = '\r' || c.toNat = 11 || c.toNat = 12

/-- Both-ends whitespace trimming of the JS Number coercion. -/
def jsTrim (l : List Char) : List Char :=
  ((l.dropWhile jsWhitespace).reverse.dropWhile jsWhitespace).reverse

/-- Model of the composite `${Number(s)}` the code applies to each core
component: trim whitespace; an empty remainder is the number 0; a digit
remainder is its value rounded to a double and rendered as JS renders a
number (decimal below 10^21, exponential above, leading zeros gone);
every other remainder is mapped to NaN.  JS additionally accepts signs,
fractions, exponent forms and hex here — none can reach the bounded
theorems below, and their renderings consist of the same hyphen-free
character set the unbounded theorems rely on. -/
def jsNumberString (s : String) : String :=
  let t := jsTrim s.data
  if t = [] then "0"
  else if t.all Char.isDigit then renderJsNum (roundToDouble (digitsVal t))
  else "NaN"

/-- Model of interpolating element `i` of the destructured array
`parts[0].split('.')` in a JS template: a missing element is the
undefined value and renders as the word undefined. -/
def jsIndexRender (xs : List String) (i : Nat) : String :=
  match xs.get? i with
  | some s => jsNumberString s
  | none => "undefined"

/-- Rendering of the template prefix `${major}.${minor}.${patch}` where
`[major, minor, patch]` destructures `core.split('.').map(Number)`. -/
def coreRender (core : String) : String :=
  let xs := jsSplit '.' core
  jsIndexRender xs 0 ++ "." ++ jsIndexRender xs 1 ++ "." ++ jsIndexRender xs 2

/-- Model of `prerelease.match(/^rc\.(\d+)$/)`: when the whole string is
the two letters rc, a dot, and one or more ASCII digits, returns the
digit substring (the capture group); otherwise none. -/
def rcMatchDigits (pre : String) : Option String :=
  match pre.data with
  | 'r' :: 'c' :: '.' :: ds =>
    if ds ≠ [] ∧ ds.all Char.isDigit then some (String.mk ds) else none
  | _ => none

/-! ### The pure version functions (embedded from the source) -/

/-- Embedding of bumpPatchVersion: splits on hyphens, re-renders the core
triple through Number, and either increments an exact rc.N first
prerelease segment or replaces it by rc.1. -/
def bumpPatchVersion (version : String) : String :=
  let parts := jsSplit '-' version
  let core := coreRender (parts.headD "")
  if parts.length > 1 then
    let prerelease := parts.getD 1 ""
    match rcMatchDigits prerelease with
    | some ds =>
      core ++ "-rc." ++ renderJsNum (jsAdd1 (roundToDouble (digitsVal ds.data)))
    | none => core ++ "-rc.1"
  else
    core ++ "-rc.1"

/-- Embedding of stripPrerelease: everything before the first hyphen. -/
def stripPrerelease (version : String) : String :=
  (jsSplit '-' version).headD ""

/-- Character class `[a-zA-Z0-9.-]` of the semver regex's prerelease
part. -/
def validPreChar (c : Char) : Bool :=
  c.isDigit || (97 ≤ c.toNat && c.toNat ≤ 122) || (65 ≤ c.toNat && c.toNat ≤ 90)
    || c = '.' || c = '-'

/-- Matcher for the anchored prefix `[0-9]+\.[0-9]+\.[0-9]+` of the
semver regex: consumes the core triple greedily (the digit class never
matches a dot, so greedy matching is deterministic here) and returns the
remaining characters, or none when the shape is violated. -/
def matchCore (l : List Char) : Option (List Char) :=
  let d1 := l.takeWhile Char.isDigit
  let r1 := l.dropWhile Char.isDigit
  if d1 = [] then none else
  match r1 with
  | '.' :: r2 =>
    let d2 := r2.takeWhile Char.isDigit
    let r3 := r2.dropWhile Char.isDigit
    if d2 = [] then none else
    match r3 with
    | '.' :: r4 =>
      let d3 := r4.takeWhile Char.isDigit
      let r5 := r4.dropWhile Char.isDigit
      if d3 = [] then none else some r5
    | _ => none
  | _ => none

/-- Embedding of validateSemver: the regex
`^[0-9]+\.[0-9]+\.[0-9]+(-[a-zA-Z0-9.-]+)?$` as an executable test. -/
def validateSemver (version : String) : Bool :=
  match matchCore version.data with
  | none => false
  | some [] => true
  | some ('-' :: rest) => !rest.isEmpty && rest.all validPreChar
  | some _ => false

/-! ### State model of the backing record and of the Node builtins -/

/-- Raw bytes of the backing record file. -/
abbrev Bytes := String

/-- JS truthiness of an optional string argument: null and the empty
string are falsy, every other string is truthy. -/
def truthy : Option String → Bool
  | none => false
  | some s => !s.isEmpty

/-- The parsed package document, as far as the code inspects it: the
version field (absent when the JSON object has none) and the remaining
fields, which the core never inspects. -/
structure Pkg where
  version : Option String
  rest : List (String × String)
deriving Repr, DecidableEq

/-- The JSON codec the code reaches through JSON.parse and the composite
`JSON.stringify(pkg, null, 2) + '\n'`; an external Node builtin, so the
theorems quantify over every codec.  parse returns none when JSON.parse
would throw. -/
structure Codec where
  parse : Bytes → Option Pkg
  stringify : Pkg → Bytes

/-- State of the world the core touches: the record file's content (none
when the file is unreadable, so readFileSync throws) and counters of the
read and write system calls performed on it, used to state frame
properties. -/
structure World where
  file : Option Bytes
  reads : Nat
  writes : Nat
deriving Repr, DecidableEq

/-- Model of `readFileSync(pkgPath, 'utf8')`: yields the content (none
means the call throws) and counts the read. -/
def readRecord (w : World) : Option Bytes × World :=
  (w.file, { w with reads := w.reads + 1 })

/-- Model of `writeFileSync(pkgPath, b)`: replaces the content and counts
the write. -/
def writeRecord (b : Bytes) (w : World) : World :=
  { w with file := some b, writes := w.writes + 1 }

/-- How a call can finish: a returned value, a thrown JS exception with
its message, or process.exit with a code (which no catch intercepts). -/
inductive Outcome (α : Type) where
  | ok : α → Outcome α
  | thrown : String → Outcome α
  | exited : Nat → Outcome α
deriving Repr, DecidableEq

/-- The external calculator reached through
`execSync('npm version <kind> --no-git-tag-version')`: from the record
content it decides success (execSync returns) or failure (execSync
throws) and leaves the record file in some state.  Modelling the
resulting content independently of the success flag keeps the restore
theorems honest even against a calculator that corrupts the file and
then fails. -/
structure Calculator where
  run : String → Option Bytes → Bool × Option Bytes

/-- The pair a resolution produces. -/
structure ResolutionResult where
  original : String
  version : String
deriving Repr, DecidableEq

/-! ### The effectful functions (embedded from the source) -/

/-- Embedding of getCurrentVersion: a truthy override is returned without
touching the record; otherwise the record is read and JSON-parsed (either
step may throw), a falsy version field prints an error and exits the
process, and a truthy version field is returned as-is. -/
def getCurrentVersion (codec : Codec) (overrideVersion : Option String)
    (w : World) : Outcome String × World :=
  if truthy overrideVersion then
    (Outcome.ok (overrideVersion.getD ""), w)
  else
    match readRecord w with
    | (none, w1) => (Outcome.thrown "ENOENT: no such file or directory", w1)
    | (some content, w1) =>
      match codec.parse content with
      | none => (Outcome.thrown "Unexpected token in JSON", w1)
      | some pkg =>
        if truthy pkg.version then (Outcome.ok (pkg.version.getD ""), w1)
        else (Outcome.exited 1, w1)

/-- The try/catch block of calculateBumpVersion, starting from the state
in which the snapshot has been taken and the optional override has been
written: invoke the external calculator (a failed invocation is the
execSync throw that lands in the catch), re-read the version field, and
write the snapshot back; the catch also writes the snapshot back and
then exits the process.  A process.exit raised inside the try (from
getCurrentVersion) is not an exception, so it propagates without
triggering the catch or the restore. -/
def calcPhase (codec : Codec) (extCalc : Calculator) (bumpType : String)
    (originalVersion : String) (originalPkgContent : Bytes) (w3 : World) :
    Outcome ResolutionResult × World :=
  match extCalc.run bumpType w3.file with
  | (true, calcFile) =>
    (match getCurrentVersion codec none { w3 with file := calcFile } with
     | (Outcome.ok newVersion, w5) =>
       (Outcome.ok ⟨originalVersion, newVersion⟩,
        writeRecord originalPkgContent w5)
     | (Outcome.thrown _, w5) =>
       (Outcome.exited 1, writeRecord originalPkgContent w5)
     | (Outcome.exited n, w5) => (Outcome.exited n, w5))
  | (false, calcFile) =>
    (Outcome.exited 1, writeRecord originalPkgContent { w3 with file := calcFile })

/-- Embedding of calculateBumpVersion: resolve the original version,
snapshot the record's raw content, temporarily write the override into
the record when one is given, and run the try/catch block `calcPhase`
around the external calculator. -/
def calculateBumpVersion (codec : Codec) (extCalc : Calculator)
    (bumpType : String) (overrideVersion : Option String)
    (w : World) : Outcome ResolutionResult × World :=
  match getCurrentVersion codec overrideVersion w with
  | (Outcome.ok originalVersion, w1) =>
    (match readRecord w1 with
     | (none, w2) => (Outcome.thrown "ENOENT: no such file or directory", w2)
     | (some originalPkgContent, w2) =>
       match codec.parse originalPkgContent with
       | none => (Outcome.thrown "Unexpected token in JSON", w2)
       | some pkg =>
         calcPhase codec extCalc bumpType originalVersion originalPkgContent
           (if truthy overrideVersion then
              writeRecord (codec.stringify { pkg with version := overrideVersion }) w2
            else w2))
  | (Outcome.thrown e, w1) => (Outcome.thrown e, w1)
  | (Outcome.exited n, w1) => (Outcome.exited n, w1)

/-- Embedding of resolveVersion (the module variant, which throws on bad
input): reject empty input, lowercase the token, resolve the current
version, then dispatch to the delegated increment, the pure bump and
final transitions, or the explicit-version branch with its validation. -/
def resolveVersion (codec : Codec) (extCalc : Calculator) (input : String)
    (overrideVersion : Option String) (w : World) :
    Outcome ResolutionResult × World :=
  if input.isEmpty then
    (Outcome.thrown "Version input is required", w)
  else
    let inputLower := jsToLower input
    match getCurrentVersion codec overrideVersion w with
    | (Outcome.ok currentVersion, w1) =>
      if inputLower = "major" ∨ inputLower = "minor" ∨ inputLower = "patch" then
        calculateBumpVersion codec extCalc inputLower overrideVersion w1
      else if inputLower = "bump" then
        (Outcome.ok ⟨currentVersion, bumpPatchVersion currentVersion⟩, w1)
      else if inputLower = "final" then
        (Outcome.ok ⟨currentVersion, stripPrerelease currentVersion⟩, w1)
      else if validateSemver input then
        (Outcome.ok ⟨currentVersion, input⟩, w1)
      else
        (Outcome.thrown ("Invalid version format: " ++ input
          ++ ". Expected format: x.y.z or x.y.z-prerelease"), w1)
    | (Outcome.thrown e, w1) => (Outcome.thrown e, w1)
    | (Outcome.exited n, w1) => (Outcome.exited n, w1)

/-! ### Claim-side definitions

These follow the words of the specification (not the source) and exist
only to be compared against the embedded functions. -/

/-- Joins character segments with a separator character. -/
def joinChar (sep : Char) (ls : List (List Char)) : List Char :=
  (ls.intersperse [sep]).flatten

/-- Splits a version string at its first hyphen: the core part and, when
a hyphen occurs, the entire remainder (the prerelease as the
specification's data model understands it, further hyphens included). -/
def hyphenSplitFirst (s : String) : String × Option String :=
  match splitChar '-' s.data with
  | [] => (s, none)
  | [core] => (String.mk core, none)
  | core :: rest => (String.mk core, some (String.mk (joinChar '-' rest)))

/-- The specification's pattern rc.N for a non-negative integer N,
applied to a whole prerelease: returns the exact integer N when the
prerelease is exactly the letters rc, a dot and a digit string (the
claim speaks of N as a mathematical integer, with no precision loss). -/
def rcExact (pre : String) : Option Nat :=
  match pre.data with
  | 'r' :: 'c' :: '.' :: ds =>
    if ds ≠ [] ∧ ds.all Char.isDigit then some (digitsVal ds)
    else none
  | _ => none

/-- Modelled from the spec: the bump transition exactly as the claim
words it, with the prerelease taken to be everything after the first
hyphen and N+1 computed with exact integer arithmetic — no prerelease
appends rc.1, a prerelease that is exactly rc.N becomes rc.N+1, and any
other prerelease shape is replaced by rc.1, the core part kept verbatim
in each case. -/
def claimBump (s : String) : String :=
  match hyphenSplitFirst s with
  | (core, none) => core ++ "-rc.1"
  | (core, some pre) =>
    match rcExact pre with
    | some n => core ++ "-rc." ++ natStr (n + 1)
    | none => core ++ "-rc.1"

/-! ### Concrete instances used to evaluate the theorems -/

/-- A concrete record codec for evaluating the theorems: the record's
bytes are exactly its version field and there are no other fields. -/
def demoCodec : Codec where
  parse := fun b => some ⟨some b, []⟩
  stringify := fun p => p.version.getD ""

/-- A world whose record holds the version 1.0.0 and whose counters are
zero. -/
def demoWorld : World := ⟨some "1.0.0", 0, 0⟩

/-- A calculator that always succeeds and leaves the record at version
2.0.0. -/
def okCalc : Calculator := ⟨fun _ _ => (true, some "2.0.0")⟩

/-- A calculator whose invocation always fails, leaving the record as it
found it. -/
def failCalc : Calculator := ⟨fun _ f => (false, f)⟩

/-- A calculator whose invocation scribbles over the record and then
fails — the worst case the restore discipline must survive. -/
def corruptingCalc : Calculator := ⟨fun _ _ => (false, some "garbage")⟩

/-! ### Lemmas about the split model -/

theorem splitChar_ne_nil (sep : Char) (l : List Char) : splitChar sep l ≠ [] := by
  induction l with
  | nil => simp [splitChar]
  | cons c cs ih =>
    simp only [splitChar]
    split
    · simp
    · split
      · simp
      · simp

theorem splitChar_of_not_mem {sep : Char} :
    ∀ {l : List Char}, sep ∉ l → splitChar sep l = [l]
  | [], _ => rfl
  | c :: cs, h => by
    have hc : ¬ c = sep := fun hcs => h (hcs ▸ List.mem_cons_self c cs)
    have hcs : sep ∉ cs := fun hm => h (List.mem_cons_of_mem _ hm)
    simp only [splitChar, if_neg hc, splitChar_of_not_mem hcs]

theorem splitChar_append {sep : Char} :
    ∀ {xs : List Char}, sep ∉ xs → ∀ ys : List Char,
      splitChar sep (xs ++ sep :: ys) = xs :: splitChar sep ys
  | [], _, ys => by simp [splitChar]
  | x :: xs, h, ys => by
    have hx : ¬ x = sep := fun hxs => h (hxs ▸ List.mem_cons_self x xs)
    have hxs : sep ∉ xs := fun hm => h (List.mem_cons_of_mem _ hm)
    simp only [List.cons_append, splitChar, if_neg hx, List.append_eq,
      splitChar_append hxs ys]

theorem not_mem_headD_splitChar (sep : Char) :
    ∀ l : List Char, sep ∉ (splitChar sep l).headD []
  | [] => by simp [splitChar]
  | c :: cs => by
    have ih := not_mem_headD_splitChar sep cs
    simp only [splitChar]
    split
    · simp
    · rename_i hc
      cases h : splitChar sep cs with
      | nil => exact absurd h (splitChar_ne_nil sep cs)
      | cons a b =>
        rw [h] at ih
        simp only [List.headD_cons] at ih ⊢
        intro hmem
        rcases List.mem_cons.mp hmem with h1 | h2
        · exact hc h1.symm
        · exact ih h2

/-! ### Lemmas about the double model -/

theorem not_hyphen_of_isDigit {c : Char} (h : c.isDigit = true) : c ≠ '-' := by
  rintro rfl
  simp [Char.isDigit] at h

theorem not_dot_of_isDigit {c : Char} (h : c.isDigit = true) : c ≠ '.' := by
  rintro rfl
  simp [Char.isDigit] at h

theorem natToDigitsAux_chars :
    ∀ (fs : List Unit) (n : Nat) (acc : List Char),
      (∀ c ∈ acc, ∃ d, d < 10 ∧ c = Char.ofNat (48 + d)) →
      ∀ c ∈ natToDigitsAux fs n acc, ∃ d, d < 10 ∧ c = Char.ofNat (48 + d)
  | [], _, _, hacc => hacc
  | _ :: fs, n, acc, hacc => by
    have hacc2 : ∀ c ∈ Char.ofNat (48 + n % 10) :: acc,
        ∃ d, d < 10 ∧ c = Char.ofNat (48 + d) := by
      intro c hc
      rcases List.mem_cons.mp hc with h | h
      · exact ⟨n % 10, Nat.mod_lt _ (by norm_num), h⟩
      · exact hacc c h
    simp only [natToDigitsAux]
    split
    · exact hacc2
    · exact natToDigitsAux_chars fs (n / 10) _ hacc2

theorem natToDigits_char_facts (n : Nat) :
    ∀ c ∈ natToDigits n, c.isDigit = true ∧ jsWhitespace c = false := by
  intro c hc
  obtain ⟨d, hd, rfl⟩ := natToDigitsAux_chars _ n [] (by simp) c hc
  interval_cases d <;> exact ⟨by decide, by decide⟩

theorem natToDigitsAux_ne_nil :
    ∀ (fs : List Unit) (n : Nat) (acc : List Char), acc ≠ [] →
      natToDigitsAux fs n acc ≠ []
  | [], _, _, h => h
  | _ :: fs, n, acc, _ => by
    simp only [natToDigitsAux]
    split
    · simp
    · exact natToDigitsAux_ne_nil fs _ _ (by simp)

theorem natToDigitsAux_cons_ne_nil (fs : List Unit) (n : Nat)
    (acc : List Char) : natToDigitsAux (() :: fs) n acc ≠ [] := by
  show (if n < 10 then Char.ofNat (48 + n % 10) :: acc
      else natToDigitsAux fs (n / 10) (Char.ofNat (48 + n % 10) :: acc)) ≠ []
  split
  · simp
  · exact natToDigitsAux_ne_nil fs _ _ (by simp)

theorem natToDigits_ne_nil (n : Nat) : natToDigits n ≠ [] :=
  natToDigitsAux_cons_ne_nil (List.replicate 399 ()) n []

theorem digitChar_toNat {d : Nat} (h : d < 10) :
    (Char.ofNat (48 + d)).toNat = 48 + d := by
  interval_cases d <;> decide

theorem foldl_digits_init (acc : List Char) :
    ∀ a : Nat,
      acc.foldl (fun a c => a * 10 + (c.toNat - 48)) a
        = a * 10 ^ acc.length + digitsVal acc := by
  induction acc with
  | nil => intro a; simp [digitsVal]
  | cons c cs ih =>
    intro a
    have h1 := ih (a * 10 + (c.toNat - 48))
    have h2 := ih (c.toNat - 48)
    simp only [List.foldl_cons, List.length_cons]
    rw [h1]
    have hval : digitsVal (c :: cs)
        = (c.toNat - 48) * 10 ^ cs.length + digitsVal cs := by
      simp only [digitsVal, List.foldl_cons]
      have := ih (0 * 10 + (c.toNat - 48))
      simpa using this
    rw [hval]
    ring

theorem digitsVal_cons (c : Char) (l : List Char) :
    digitsVal (c :: l) = (c.toNat - 48) * 10 ^ l.length + digitsVal l := by
  simp only [digitsVal, List.foldl_cons]
  have := foldl_digits_init l (0 * 10 + (c.toNat - 48))
  simpa [digitsVal] using this

theorem natToDigitsAux_val :
    ∀ (fs : List Unit) (n : Nat) (acc : List Char), n < 10 ^ fs.length →
      digitsVal (natToDigitsAux fs n acc) = n * 10 ^ acc.length + digitsVal acc
  | [], n, acc, h => by
    have hn : n = 0 := by simpa using h
    subst hn
    simp [natToDigitsAux]
  | _ :: fs, n, acc, h => by
    have hd : (Char.ofNat (48 + n % 10)).toNat - 48 = n % 10 := by
      rw [digitChar_toNat (Nat.mod_lt _ (by norm_num))]
      omega
    have hcons : digitsVal (Char.ofNat (48 + n % 10) :: acc)
        = (n % 10) * 10 ^ acc.length + digitsVal acc := by
      rw [digitsVal_cons, hd]
    simp only [natToDigitsAux]
    split
    · rename_i hn
      rw [hcons, Nat.mod_eq_of_lt hn]
    · have hlt : n / 10 < 10 ^ fs.length := by
        have hp : (10 : Nat) ^ (fs.length + 1) = 10 ^ fs.length * 10 := by ring
        simp only [List.length_cons, hp] at h
        omega
      rw [natToDigitsAux_val fs (n / 10) _ hlt, List.length_cons, hcons]
      have hsplit : n / 10 * 10 ^ (acc.length + 1)
          = (n / 10 * 10) * 10 ^ acc.length := by ring
      rw [hsplit, ← Nat.add_assoc, ← Nat.add_mul]
      have hmod : n / 10 * 10 + n % 10 = n := by omega
      rw [hmod]

theorem digitsVal_natToDigits {n : Nat} (h : n < 10 ^ 400) :
    digitsVal (natToDigits n) = n := by
  have hlen : n < 10 ^ (List.replicate 400 ()).length := by
    rw [List.length_replicate]
    exact h
  calc digitsVal (natToDigits n)
      = n * 10 ^ List.length ([] : List Char) + digitsVal [] :=
        natToDigitsAux_val (List.replicate 400 ()) n [] hlen
    _ = n := by simp [digitsVal]

theorem natStr_no_hyphen (n : Nat) : '-' ∉ (natStr n).data := fun hm =>
  not_hyphen_of_isDigit ((natToDigits_char_facts n _ hm).1) rfl

theorem natStr_no_dot (n : Nat) : '.' ∉ (natStr n).data := fun hm =>
  not_dot_of_isDigit ((natToDigits_char_facts n _ hm).1) rfl

theorem dropWhile_of_all {p : Char → Bool} {l : List Char}
    (h : ∀ c ∈ l, p c = false) : l.dropWhile p = l := by
  cases l with
  | nil => rfl
  | cons c cs =>
    rw [List.dropWhile_cons, h c (List.mem_cons_self c cs)]
    simp

theorem jsTrim_of_all {l : List Char}
    (h : ∀ c ∈ l, jsWhitespace c = false) : jsTrim l = l := by
  unfold jsTrim
  rw [dropWhile_of_all h,
    dropWhile_of_all (fun c hc => h c (List.mem_reverse.mp hc)),
    List.reverse_reverse]

theorem roundToDouble_of_lt {n : Nat} (h : n < 2 ^ 53) :
    roundToDouble n = JsNum.finite n := by
  unfold roundToDouble
  rw [if_pos h]

theorem jsAdd1_finite {n : Nat} (h : n + 1 < 2 ^ 53) :
    jsAdd1 (JsNum.finite n) = JsNum.finite (n + 1) := by
  unfold jsAdd1
  exact roundToDouble_of_lt h

theorem renderJsNum_small {n : Nat} (h : n < 2 ^ 53) :
    renderJsNum (JsNum.finite n) = natStr n := by
  show (if n < 10 ^ 21 then natStr n else expRender n) = natStr n
  rw [if_pos (lt_trans h (by norm_num))]

theorem mem_stripTrailingZeros {x : Char} {l : List Char}
    (h : x ∈ stripTrailingZeros l) : x ∈ l := by
  unfold stripTrailingZeros at h
  have h1 := List.mem_reverse.mp h
  have h2 := (List.dropWhile_sublist _).mem h1
  exact List.mem_reverse.mp h2

theorem sigString_no_hyphen (c : Nat) : '-' ∉ (sigString c).data := by
  have hall : ∀ x ∈ natToDigits c, x.isDigit = true :=
    fun x hx => (natToDigits_char_facts c x hx).1
  unfold sigString
  split
  · decide
  · rename_i d ds hnd
    rw [hnd] at hall
    split
    · rename_i hst
      intro hm
      rcases List.mem_cons.mp hm with h | h
      · exact not_hyphen_of_isDigit (hall d (List.mem_cons_self d ds)) h.symm
      · simp at h
    · rename_i ds2 hst
      intro hm
      rcases List.mem_cons.mp hm with h | h
      · exact not_hyphen_of_isDigit (hall d (List.mem_cons_self d ds)) h.symm
      · rcases List.mem_cons.mp h with h2 | h2
        · exact absurd h2.symm (by decide)
        · exact not_hyphen_of_isDigit
            (hall _ (List.mem_cons_of_mem d (mem_stripTrailingZeros h2))) rfl

theorem exp_shape_no_hyphen (c e : Nat) :
    '-' ∉ (sigString c ++ "e+" ++ natStr e).data := by
  intro hm
  simp only [String.data_append, List.mem_append] at hm
  rcases hm with (hm | hm) | hm
  · exact sigString_no_hyphen c hm
  · exact absurd hm (by decide)
  · exact natStr_no_hyphen e hm

theorem expRender_no_hyphen (v : Nat) : '-' ∉ (expRender v).data := by
  unfold expRender
  dsimp only
  split
  · exact exp_shape_no_hyphen _ _
  · exact exp_shape_no_hyphen _ _

theorem renderJsNum_no_hyphen (x : JsNum) : '-' ∉ (renderJsNum x).data := by
  cases x with
  | infinity => decide
  | finite w =>
    show '-' ∉ (if w < 10 ^ 21 then natStr w else expRender w).data
    split
    · exact natStr_no_hyphen w
    · exact expRender_no_hyphen w

theorem jsNumberString_no_hyphen (s : String) :
    '-' ∉ (jsNumberString s).data := by
  unfold jsNumberString
  dsimp only
  split
  · decide
  · split
    · exact renderJsNum_no_hyphen _
    · decide

theorem jsNumberString_natStr {n : Nat} (h : n < 2 ^ 53) :
    jsNumberString (natStr n) = natStr n := by
  have hchars := natToDigits_char_facts n
  unfold jsNumberString
  dsimp only
  have htrim : jsTrim (natStr n).data = natToDigits n :=
    jsTrim_of_all (fun c hc => (hchars c hc).2)
  rw [htrim, if_neg (natToDigits_ne_nil n),
    if_pos (List.all_eq_true.mpr (fun c hc => (hchars c hc).1)),
    digitsVal_natToDigits (lt_trans h (by norm_num)),
    roundToDouble_of_lt h, renderJsNum_small h]

/-! ### Characterizations of the pure version functions -/

@[simp] theorem mk_data (s : String) : String.mk s.data = s := rfl

/-- The first hyphen-separated segment of a string (what `s.split('-')[1]`
sees of a prerelease when the input was `core-s`). -/
def firstHyphenSegment (s : String) : String :=
  String.mk ((splitChar '-' s.data).headD [])

theorem stripPrerelease_no_hyphen {s : String} (h : '-' ∉ s.data) :
    stripPrerelease s = s := by
  unfold stripPrerelease jsSplit
  rw [splitChar_of_not_mem h]
  simp

theorem stripPrerelease_append {core rest : String} (h : '-' ∉ core.data) :
    stripPrerelease (core ++ "-" ++ rest) = core := by
  unfold stripPrerelease jsSplit
  have hdata : (core ++ "-" ++ rest).data = core.data ++ '-' :: rest.data := by
    simp [String.data_append]
  rw [hdata, splitChar_append h]
  simp

theorem hyphen_not_mem_stripPrerelease (s : String) :
    '-' ∉ (stripPrerelease s).data := by
  unfold stripPrerelease jsSplit
  have h := not_mem_headD_splitChar '-' s.data
  cases hs : splitChar '-' s.data with
  | nil => exact absurd hs (splitChar_ne_nil _ _)
  | cons a b =>
    rw [hs] at h
    simp only [List.map_cons, List.headD_cons] at h ⊢
    exact h

theorem jsIndexRender_no_hyphen (xs : List String) (i : Nat) :
    '-' ∉ (jsIndexRender xs i).data := by
  unfold jsIndexRender
  cases xs.get? i with
  | some s => exact jsNumberString_no_hyphen s
  | none => decide

theorem coreRender_no_hyphen (s : String) : '-' ∉ (coreRender s).data := by
  unfold coreRender
  have h0 := jsIndexRender_no_hyphen (jsSplit '.' s) 0
  have h1 := jsIndexRender_no_hyphen (jsSplit '.' s) 1
  have h2 := jsIndexRender_no_hyphen (jsSplit '.' s) 2
  have hdot : '-' ∉ ("." : String).data := by decide
  intro hm
  simp only [String.data_append, List.mem_append] at hm
  tauto

theorem bumpPatchVersion_no_hyphen {s : String} (h : '-' ∉ s.data) :
    bumpPatchVersion s = coreRender s ++ "-rc.1" := by
  unfold bumpPatchVersion jsSplit
  rw [splitChar_of_not_mem h]
  simp

theorem bumpPatchVersion_append {core rest : String} (h : '-' ∉ core.data) :
    bumpPatchVersion (core ++ "-" ++ rest) =
      (match rcMatchDigits (firstHyphenSegment rest) with
       | some ds =>
         coreRender core ++ "-rc."
           ++ renderJsNum (jsAdd1 (roundToDouble (digitsVal ds.data)))
       | none => coreRender core ++ "-rc.1") := by
  unfold bumpPatchVersion jsSplit firstHyphenSegment
  have hdata : (core ++ "-" ++ rest).data = core.data ++ '-' :: rest.data := by
    simp [String.data_append]
  rw [hdata, splitChar_append h]
  cases hs : splitChar '-' rest.data with
  | nil => exact absurd hs (splitChar_ne_nil _ _)
  | cons a b => simp

/-! ### Lemmas about the effectful layer -/

theorem getCurrentVersion_eq (codec : Codec) (ov : Option String) (w : World) :
    getCurrentVersion codec ov w =
      if truthy ov then (Outcome.ok (ov.getD ""), w)
      else
        match w.file with
        | none => (Outcome.thrown "ENOENT: no such file or directory",
            { w with reads := w.reads + 1 })
        | some content =>
          match codec.parse content with
          | none => (Outcome.thrown "Unexpected token in JSON",
              { w with reads := w.reads + 1 })
          | some pkg =>
            if truthy pkg.version then
              (Outcome.ok (pkg.version.getD ""), { w with reads := w.reads + 1 })
            else (Outcome.exited 1, { w with reads := w.reads + 1 }) := by
  unfold getCurrentVersion readRecord
  split
  · rfl
  · cases w.file <;> rfl

theorem getCurrentVersion_frame (codec : Codec) (ov : Option String) (w : World) :
    ((getCurrentVersion codec ov w).2).file = w.file ∧
    ((getCurrentVersion codec ov w).2).writes = w.writes := by
  rw [getCurrentVersion_eq]
  split
  · exact ⟨rfl, rfl⟩
  · cases w.file with
    | none => exact ⟨rfl, rfl⟩
    | some content =>
      dsimp only
      cases codec.parse content with
      | none => exact ⟨rfl, rfl⟩
      | some pkg =>
        dsimp only
        split <;> exact ⟨rfl, rfl⟩

theorem getCurrentVersion_of_truthy (codec : Codec) {ov : Option String}
    (w : World) (h : truthy ov = true) :
    getCurrentVersion codec ov w = (Outcome.ok (ov.getD ""), w) := by
  rw [getCurrentVersion_eq, if_pos h]

/-- The §6 contract of the external calculator, restricted to what the
restore discipline relies on: when the invocation reports success, any
parse of the record it leaves behind yields a truthy version field. -/
def Calculator.wellBehaved (extCalc : Calculator) (codec : Codec) : Prop :=
  ∀ k f b pkg, (extCalc.run k f).1 = true → (extCalc.run k f).2 = some b →
    codec.parse b = some pkg → truthy pkg.version = true

theorem calcPhase_file (codec : Codec) (extCalc : Calculator)
    (bumpType : String) (ov₀ : String) (c₀ : Bytes) (w3 : World)
    (hwb : extCalc.wellBehaved codec) :
    ((calcPhase codec extCalc bumpType ov₀ c₀ w3).2).file = some c₀ := by
  unfold calcPhase
  cases hcs : extCalc.run bumpType w3.file with
  | mk succ calcFile =>
    cases succ with
    | false => rfl
    | true =>
      dsimp only
      rw [getCurrentVersion_eq]
      rw [if_neg (by simp [truthy])]
      cases calcFile with
      | none => rfl
      | some b =>
        dsimp only
        cases hpb : codec.parse b with
        | none => rfl
        | some pkg =>
          dsimp only
          have ht : truthy pkg.version = true :=
            hwb bumpType w3.file b pkg (by rw [hcs]) (by rw [hcs]) hpb
          rw [if_pos ht]
          rfl

/-! ### Further pure lemmas -/

theorem rcExact_eq (t : String) :
    rcExact t = (rcMatchDigits t).map (fun d => digitsVal d.data) := by
  unfold rcExact rcMatchDigits
  split
  · split <;> simp
  · rfl

theorem coreRender_natTriple {x y z : Nat} (hx : x < 2 ^ 53)
    (hy : y < 2 ^ 53) (hz : z < 2 ^ 53) :
    coreRender (natStr x ++ "." ++ natStr y ++ "." ++ natStr z)
      = natStr x ++ "." ++ natStr y ++ "." ++ natStr z := by
  unfold coreRender jsSplit
  have hdata : (natStr x ++ "." ++ natStr y ++ "." ++ natStr z).data
      = (natStr x).data ++ '.' :: ((natStr y).data ++ '.' :: (natStr z).data) := by
    simp [String.data_append]
  rw [hdata, splitChar_append (natStr_no_dot x),
      splitChar_append (natStr_no_dot y),
      splitChar_of_not_mem (natStr_no_dot z)]
  simp only [List.map_cons, List.map_nil, mk_data]
  unfold jsIndexRender
  simp only [List.get?]
  rw [jsNumberString_natStr hx, jsNumberString_natStr hy,
    jsNumberString_natStr hz]

theorem hyphen_not_mem_natCore (x y z : Nat) :
    '-' ∉ (natStr x ++ "." ++ natStr y ++ "." ++ natStr z).data := by
  have hdata : (natStr x ++ "." ++ natStr y ++ "." ++ natStr z).data
      = (natStr x).data ++ '.' :: ((natStr y).data ++ '.' :: (natStr z).data) := by
    simp [String.data_append]
  rw [hdata]
  intro hm
  rcases List.mem_append.mp hm with hm | hm
  · exact natStr_no_hyphen x hm
  · rcases List.mem_cons.mp hm with hm | hm
    · exact absurd hm (by decide)
    · rcases List.mem_append.mp hm with hm | hm
      · exact natStr_no_hyphen y hm
      · rcases List.mem_cons.mp hm with hm | hm
        · exact absurd hm (by decide)
        · exact natStr_no_hyphen z hm

theorem stripPrerelease_core_rc {core : String} (t : String)
    (h : '-' ∉ core.data) :
    stripPrerelease (core ++ "-rc." ++ t) = core := by
  have h1 : ("-rc." : String) = "-" ++ "rc." := by decide
  rw [String.append_assoc core "-rc." t, h1, String.append_assoc,
    ← String.append_assoc core "-" _]
  exact stripPrerelease_append h

theorem bump_branch (s : String) :
    ∃ t : String,
      bumpPatchVersion s
        = coreRender ((jsSplit '-' s).headD "") ++ "-rc." ++ t ∧
      (rcMatchDigits ((jsSplit '-' s).getD 1 "") = none → t = "1") ∧
      (∀ ds, rcMatchDigits ((jsSplit '-' s).getD 1 "") = some ds →
        t = renderJsNum (jsAdd1 (roundToDouble (digitsVal ds.data)))) := by
  unfold bumpPatchVersion jsSplit
  cases hs : splitChar '-' s.data with
  | nil => exact absurd hs (splitChar_ne_nil _ _)
  | cons a b =>
    cases b with
    | nil =>
      refine ⟨"1", ?_, fun _ => rfl, ?_⟩
      · simp only [List.map_cons, List.map_nil, List.length_cons,
          List.length_nil, List.headD_cons]
        rw [if_neg (by decide)]
        rw [String.append_assoc]
        congr 1
      · intro ds hds
        simp [rcMatchDigits] at hds
    | cons a2 b2 =>
      simp only [List.map_cons, List.length_cons, List.headD_cons, List.getD,
        List.get?]
      rw [if_pos (by simp)]
      rw [show ((some (String.mk a2)).getD "") = String.mk a2 from rfl]
      cases hrc : rcMatchDigits (String.mk a2) with
      | some ds =>
        refine ⟨renderJsNum (jsAdd1 (roundToDouble (digitsVal ds.data))),
          rfl, ?_, ?_⟩
        · intro hn
          exact absurd hn (by simp)
        · intro ds2 hds2
          have hd : ds = ds2 := by simpa using hds2
          rw [hd]
      | none =>
        refine ⟨"1", ?_, fun _ => rfl, ?_⟩
        · rw [String.append_assoc]
          congr 1
        · intro ds hds
          exact absurd hds (by simp)

/-! ### Claim C1 -/

/-- C1: for every DelegatedIncrement.increment call (any bump kind, with
or without an override), whether the call succeeds, throws, or exits
after a calculator failure, the backing record's content after the call
is byte-for-byte the snapshot captured before any mutation — provided
the external calculator honours its §6 contract that a successful
invocation leaves a record whose parse (if it parses) has a truthy
version field.  The snapshot equals the record's initial content because
nothing is written before it is taken. -/
theorem increment_preserves_record_bytes (codec : Codec)
    (extCalc : Calculator) (bumpType : String) (ov : Option String)
    (w : World) (c₀ : Bytes) (hwb : extCalc.wellBehaved codec)
    (hf : w.file = some c₀) :
    ((calculateBumpVersion codec extCalc bumpType ov w).2).file = some c₀ := by
  unfold calculateBumpVersion
  have hgf := (getCurrentVersion_frame codec ov w).1
  cases hgout : getCurrentVersion codec ov w with
  | mk out w1 =>
    rw [hgout] at hgf
    cases out with
    | thrown e => exact hgf.trans hf
    | exited n => exact hgf.trans hf
    | ok originalVersion =>
      dsimp only
      rw [show readRecord w1 = (w1.file, { w1 with reads := w1.reads + 1 })
        from rfl]
      rw [hgf, hf]
      dsimp only
      cases hp : codec.parse c₀ with
      | none => rfl
      | some pkg =>
        dsimp only
        exact calcPhase_file codec extCalc bumpType originalVersion c₀ _ hwb

/-- Witness for C1 at the concrete codec, calculator, and record. -/
theorem increment_preserves_record_bytes_witness :
    ((calculateBumpVersion demoCodec okCalc "patch" none demoWorld).2).file
      = some "1.0.0" :=
  increment_preserves_record_bytes demoCodec okCalc "patch" none demoWorld
    "1.0.0"
    (by
      intro k f b pkg h1 h2 h3
      have hb : b = "2.0.0" := by
        simpa [okCalc] using h2.symm
      subst hb
      have hpkg : pkg = ⟨some "2.0.0", []⟩ := by
        simpa [demoCodec] using h3.symm
      subst hpkg
      decide)
    rfl

/-! ### Claim C2 -/

set_option maxRecDepth 8000 in
/-- C2 is refuted twice.  On the valid semver `1.0.0-rc.1-x` the
prerelease is `rc.1-x`, which is not exactly rc.N, so the claim demands
`1.0.0-rc.1`; the code, which splits the whole string on hyphens and
inspects only the segment between the first and second hyphen, sees
`rc.1` and produces `1.0.0-rc.2`.  And on `1.0.0-rc.9007199254740993`
the claim demands rc.9007199254740994, but parseInt already rounds the
numeral to the double 9007199254740992 and the subsequent + 1 rounds
back to the same double, so the code produces
`1.0.0-rc.9007199254740992`. -/
theorem bump_claim_counterexample :
    validateSemver "1.0.0-rc.1-x" = true ∧
    bumpPatchVersion "1.0.0-rc.1-x" = "1.0.0-rc.2" ∧
    claimBump "1.0.0-rc.1-x" = "1.0.0-rc.1" ∧
    bumpPatchVersion "1.0.0-rc.1-x" ≠ claimBump "1.0.0-rc.1-x" ∧
    bumpPatchVersion "1.0.0-rc.9007199254740993"
      = "1.0.0-rc.9007199254740992" ∧
    claimBump "1.0.0-rc.9007199254740993" = "1.0.0-rc.9007199254740994" ∧
    bumpPatchVersion "1.0.0-rc.9007199254740993"
      ≠ claimBump "1.0.0-rc.9007199254740993" :=
  ⟨by decide, by decide, by decide, by decide, by decide, by decide,
   by decide⟩

/-- C2 (amended): for every Version whose numeric components are below
2^53 (where JS doubles are exact), bump follows the three cases in
order, except that the rc.N test and the replacement consider only the
prerelease's first hyphen-separated segment (anything after a further
hyphen is discarded): no prerelease appends rc.1; a first segment
exactly rc.N with N+1 below 2^53 yields rc.N+1; any other first segment
yields rc.1 — the core triple kept verbatim. -/
theorem bumpPatchVersion_three_cases (x y z : Nat) (pre : String)
    (hx : x < 2 ^ 53) (hy : y < 2 ^ 53) (hz : z < 2 ^ 53)
    (hrc : (rcExact (firstHyphenSegment pre)).getD 0 + 1 < 2 ^ 53) :
    bumpPatchVersion (natStr x ++ "." ++ natStr y ++ "." ++ natStr z)
      = natStr x ++ "." ++ natStr y ++ "." ++ natStr z ++ "-rc.1" ∧
    bumpPatchVersion (natStr x ++ "." ++ natStr y ++ "." ++ natStr z
        ++ "-" ++ pre)
      = natStr x ++ "." ++ natStr y ++ "." ++ natStr z ++ "-rc."
        ++ natStr ((rcExact (firstHyphenSegment pre)).getD 0 + 1) := by
  have hcore := hyphen_not_mem_natCore x y z
  have hcr := coreRender_natTriple hx hy hz
  constructor
  · rw [bumpPatchVersion_no_hyphen hcore, hcr]
  · rw [bumpPatchVersion_append hcore]
    cases hm : rcMatchDigits (firstHyphenSegment pre) with
    | some ds =>
      have he : rcExact (firstHyphenSegment pre) = some (digitsVal ds.data) := by
        rw [rcExact_eq, hm]
        rfl
      rw [he] at hrc
      rw [he]
      simp only [Option.getD_some] at hrc ⊢
      rw [roundToDouble_of_lt (Nat.lt_of_succ_lt hrc), jsAdd1_finite hrc,
        renderJsNum_small hrc, hcr]
    | none =>
      have he : rcExact (firstHyphenSegment pre) = none := by
        rw [rcExact_eq, hm]
        rfl
      rw [hcr, he]
      simp only [Option.getD_none]
      rw [String.append_assoc (natStr x ++ "." ++ natStr y ++ "." ++ natStr z)
        "-rc." _]
      congr 1

/-- Witness for the amended C2 on the spec's own scenario inputs. -/
theorem bumpPatchVersion_three_cases_witness :
    bumpPatchVersion (natStr 1 ++ "." ++ natStr 0 ++ "." ++ natStr 8
        ++ "-" ++ "rc.1")
      = natStr 1 ++ "." ++ natStr 0 ++ "." ++ natStr 8 ++ "-rc."
        ++ natStr ((rcExact (firstHyphenSegment "rc.1")).getD 0 + 1) :=
  (bumpPatchVersion_three_cases 1 0 8 "rc.1"
    (by norm_num) (by norm_num) (by norm_num) (by decide)).2

/-! ### Claim C3 -/

/-- C3 is refuted: when the external calculator invocation fails,
calculateBumpVersion restores the snapshot but then prints the error and
terminates the process with exit code 1 — the outcome is a process exit,
not a propagated CalculationError. -/
theorem increment_failure_counterexample :
    (calculateBumpVersion demoCodec failCalc "patch" none demoWorld).1
      = Outcome.exited 1 ∧
    ((calculateBumpVersion demoCodec failCalc "patch" none demoWorld).2).file
      = some "1.0.0" :=
  ⟨by decide, by decide⟩

theorem calcPhase_fail (codec : Codec) (extCalc : Calculator)
    (bumpType ov₀ : String) (c₀ : Bytes) (w3 : World)
    (hfail : (extCalc.run bumpType w3.file).1 = false) :
    calcPhase codec extCalc bumpType ov₀ c₀ w3
      = (Outcome.exited 1,
         writeRecord c₀ { w3 with file := (extCalc.run bumpType w3.file).2 }) := by
  unfold calcPhase
  cases hcs : extCalc.run bumpType w3.file with
  | mk succ f2 =>
    rw [hcs] at hfail
    cases succ with
    | false => rfl
    | true => exact absurd hfail (by simp)

theorem getCurrentVersion_isOk (codec : Codec) (ov : Option String)
    (w : World) (c₀ : Bytes) (pkg : Pkg) (hf : w.file = some c₀)
    (hp : codec.parse c₀ = some pkg) (hv : truthy pkg.version = true) :
    ∃ v w1, getCurrentVersion codec ov w = (Outcome.ok v, w1) ∧
      w1.file = some c₀ ∧ w1.writes = w.writes := by
  rw [getCurrentVersion_eq]
  by_cases hov : truthy ov = true
  · rw [if_pos hov]
    exact ⟨_, _, rfl, hf, rfl⟩
  · rw [if_neg hov, hf]
    dsimp only
    rw [hp]
    dsimp only
    rw [if_pos hv]
    exact ⟨_, _, rfl, rfl, rfl⟩

/-- C3 (amended): when the calculator invocation fails after the
snapshot was captured, the record is restored to the snapshot first, and
then — instead of propagating a CalculationError — the code prints the
error and terminates the process with exit code 1. -/
theorem increment_failure_restores_then_exits (codec : Codec)
    (extCalc : Calculator) (bumpType : String) (ov : Option String)
    (w : World) (c₀ : Bytes) (pkg : Pkg) (hf : w.file = some c₀)
    (hp : codec.parse c₀ = some pkg) (hv : truthy pkg.version = true)
    (hfail : ∀ k f, (extCalc.run k f).1 = false) :
    (calculateBumpVersion codec extCalc bumpType ov w).1 = Outcome.exited 1 ∧
    ((calculateBumpVersion codec extCalc bumpType ov w).2).file = some c₀ := by
  obtain ⟨v, w1, hg, hw1f, hw1w⟩ :=
    getCurrentVersion_isOk codec ov w c₀ pkg hf hp hv
  unfold calculateBumpVersion
  rw [hg]
  dsimp only
  rw [show readRecord w1 = (w1.file, { w1 with reads := w1.reads + 1 })
    from rfl]
  rw [hw1f]
  dsimp only
  rw [hp]
  dsimp only
  rw [calcPhase_fail codec extCalc bumpType v c₀ _ (hfail _ _)]
  exact ⟨rfl, rfl⟩

/-- Witness for the amended C3 with the always-failing calculator that
also scribbles over the record before failing. -/
theorem increment_failure_restores_then_exits_witness :
    (calculateBumpVersion demoCodec corruptingCalc "minor" none demoWorld).1
        = Outcome.exited 1 ∧
    ((calculateBumpVersion demoCodec corruptingCalc "minor" none demoWorld).2).file
        = some "1.0.0" :=
  increment_failure_restores_then_exits demoCodec corruptingCalc "minor" none
    demoWorld "1.0.0" ⟨some "1.0.0", []⟩ rfl rfl (by decide)
    (fun k f => rfl)

theorem getCurrentVersion_reads (codec : Codec) (ov : Option String)
    (w : World) :
    ((getCurrentVersion codec ov w).2).reads
      = (if truthy ov = true then w.reads else w.reads + 1) := by
  rw [getCurrentVersion_eq]
  by_cases h : truthy ov = true
  · rw [if_pos h, if_pos h]
  · rw [if_neg h, if_neg h]
    cases w.file with
    | none => rfl
    | some content =>
      dsimp only
      cases codec.parse content with
      | none => rfl
      | some pkg =>
        dsimp only
        split <;> rfl

/-! ### Claim C4 -/

/-- C4 is refuted: a stored version field that fails
VersionFormat.validate is returned as-is by getCurrentVersion instead of
failing with VersionFieldMissing — the code only checks the field's
truthiness, never its format. -/
theorem currentVersion_counterexample :
    validateSemver "garbage" = false ∧
    (getCurrentVersion demoCodec none ⟨some "garbage", 0, 0⟩).1
      = Outcome.ok "garbage" :=
  ⟨by decide, by decide⟩

/-- C4 (amended): a truthy override is returned without any record read;
otherwise an unreadable or unparsable record makes the call fail with
the underlying exception, a missing or empty version field makes the
process exit with an error, and any nonempty version field — validated
or not — is returned as-is. -/
theorem currentVersion_amended (codec : Codec) (ov : Option String)
    (w : World) (c : Bytes) (pkg : Pkg) (v : String) :
    (truthy ov = true →
      getCurrentVersion codec ov w = (Outcome.ok (ov.getD ""), w)) ∧
    (truthy ov = false → w.file = none →
      (getCurrentVersion codec ov w).1
        = Outcome.thrown "ENOENT: no such file or directory") ∧
    (truthy ov = false → w.file = some c → codec.parse c = none →
      (getCurrentVersion codec ov w).1
        = Outcome.thrown "Unexpected token in JSON") ∧
    (truthy ov = false → w.file = some c → codec.parse c = some pkg →
      truthy pkg.version = false →
      (getCurrentVersion codec ov w).1 = Outcome.exited 1) ∧
    (truthy ov = false → w.file = some c → codec.parse c = some pkg →
      pkg.version = some v → v ≠ "" →
      (getCurrentVersion codec ov w).1 = Outcome.ok v) := by
  refine ⟨fun h => getCurrentVersion_of_truthy codec w h, ?_, ?_, ?_, ?_⟩
  · intro h hn
    rw [getCurrentVersion_eq, if_neg (by simp [h]), hn]
  · intro h hs hp
    rw [getCurrentVersion_eq, if_neg (by simp [h]), hs]
    dsimp only
    rw [hp]
  · intro h hs hp hv
    rw [getCurrentVersion_eq, if_neg (by simp [h]), hs]
    dsimp only
    rw [hp]
    dsimp only
    rw [if_neg (by simp [hv])]
  · intro h hs hp hver hvne
    rw [getCurrentVersion_eq, if_neg (by simp [h]), hs]
    dsimp only
    rw [hp]
    dsimp only
    have hv : truthy pkg.version = true := by
      rw [hver]
      simp only [truthy]
      cases hie : v.isEmpty
      · rfl
      · exact absurd ((String.isEmpty_iff v).mp hie) hvne
    rw [if_pos hv, hver]
    rfl

/-- Witness for the amended C4: a record whose version field is the
invalid string oops is returned untouched. -/
theorem currentVersion_amended_witness :
    validateSemver "oops" = false ∧
    (getCurrentVersion demoCodec none ⟨some "oops", 0, 0⟩).1
      = Outcome.ok "oops" :=
  ⟨by decide,
   (currentVersion_amended demoCodec none ⟨some "oops", 0, 0⟩ "oops"
     ⟨some "oops", []⟩ "oops").2.2.2.2 rfl rfl rfl rfl (by decide)⟩

/-! ### Claim C5 -/

/-- C5 is refuted: resolving the invalid explicit version not-a-version
(no override) fails with the invalid-format error only after the backing
record has been read once — the record is consulted before the token is
validated, contradicting the claim that it is never read. -/
theorem explicit_validation_counterexample :
    validateSemver "not-a-version" = false ∧
    (resolveVersion demoCodec okCalc "not-a-version" none demoWorld).1
      = Outcome.thrown
          "Invalid version format: not-a-version. Expected format: x.y.z or x.y.z-prerelease" ∧
    ((resolveVersion demoCodec okCalc "not-a-version" none demoWorld).2).reads
      = 1 ∧
    demoWorld.reads = 0 :=
  ⟨by decide, by decide, by decide, by decide⟩

/-- C5 (amended): an explicit-version token that fails validation makes
the resolution fail with InvalidVersionFormatError before any record
mutation — the record's content and write counter are untouched — but
only after the current version has been resolved, which reads the record
once unless a truthy override is supplied. -/
theorem invalid_explicit_version_amended (codec : Codec)
    (extCalc : Calculator) (input : String) (ov : Option String) (w : World)
    (hne : input.isEmpty = false)
    (h1 : jsToLower input ≠ "major") (h2 : jsToLower input ≠ "minor")
    (h3 : jsToLower input ≠ "patch") (h4 : jsToLower input ≠ "bump")
    (h5 : jsToLower input ≠ "final")
    (hinvalid : validateSemver input = false) :
    ((resolveVersion codec extCalc input ov w).2).file = w.file ∧
    ((resolveVersion codec extCalc input ov w).2).writes = w.writes ∧
    (∀ v w1, getCurrentVersion codec ov w = (Outcome.ok v, w1) →
      resolveVersion codec extCalc input ov w
        = (Outcome.thrown ("Invalid version format: " ++ input
            ++ ". Expected format: x.y.z or x.y.z-prerelease"), w1)) := by
  have hframe := getCurrentVersion_frame codec ov w
  unfold resolveVersion
  rw [if_neg (by simp [hne])]
  cases hg : getCurrentVersion codec ov w with
  | mk out w1 =>
    rw [hg] at hframe
    cases out with
    | thrown e =>
      refine ⟨hframe.1, hframe.2, ?_⟩
      intro v w2 hgv
      exact absurd hgv (by simp)
    | exited n =>
      refine ⟨hframe.1, hframe.2, ?_⟩
      intro v w2 hgv
      exact absurd hgv (by simp)
    | ok cv =>
      dsimp only
      rw [if_neg (by simp [h1, h2, h3]), if_neg h4, if_neg h5,
        if_neg (by simp [hinvalid])]
      refine ⟨hframe.1, hframe.2, ?_⟩
      intro v w2 hgv
      simp only [Prod.mk.injEq, Outcome.ok.injEq] at hgv
      obtain ⟨hv, hw⟩ := hgv
      rw [hw]

/-- Witness for the amended C5 at a concrete invalid token. -/
theorem invalid_explicit_version_amended_witness :
    ((resolveVersion demoCodec okCalc "still-not-a-version" none demoWorld).2).writes
        = demoWorld.writes ∧
    resolveVersion demoCodec okCalc "still-not-a-version" none demoWorld
      = (Outcome.thrown ("Invalid version format: " ++ "still-not-a-version"
          ++ ". Expected format: x.y.z or x.y.z-prerelease"),
         ⟨some "1.0.0", 1, 0⟩) := by
  have h := invalid_explicit_version_amended demoCodec okCalc
    "still-not-a-version" none demoWorld rfl (by decide) (by decide)
    (by decide) (by decide) (by decide) (by decide)
  exact ⟨h.2.1, h.2.2 "1.0.0" ⟨some "1.0.0", 1, 0⟩ (by decide)⟩

/-! ### Claim C6 -/

set_option maxRecDepth 8000 in
/-- C6 is refuted: the code re-renders the core triple through the JS
Number coercion, whose double rounds at 2^53, so on the valid Version
`9007199254740993.0.0` the bump changes the major component to
9007199254740992 — the core triple does not serialize identically. -/
theorem bump_core_rounding_counterexample :
    validateSemver "9007199254740993.0.0" = true ∧
    bumpPatchVersion "9007199254740993.0.0"
      = "9007199254740992.0.0-rc.1" ∧
    stripPrerelease (bumpPatchVersion "9007199254740993.0.0")
      ≠ stripPrerelease "9007199254740993.0.0" :=
  ⟨by decide, by decide, by decide⟩

/-- C6 (amended): for every Version whose numeric components are below
2^53 (where the JS double that re-renders them is exact), bump leaves
the core triple untouched: the hyphen-free core prefix of bump(v) —
extracted by stripPrerelease — serializes exactly as the core triple of
v, with or without a prerelease. -/
theorem bump_preserves_core_triple_bounded (x y z : Nat) (pre : String)
    (hx : x < 2 ^ 53) (hy : y < 2 ^ 53) (hz : z < 2 ^ 53) :
    stripPrerelease (natStr x ++ "." ++ natStr y ++ "." ++ natStr z)
      = natStr x ++ "." ++ natStr y ++ "." ++ natStr z ∧
    stripPrerelease
        (bumpPatchVersion (natStr x ++ "." ++ natStr y ++ "." ++ natStr z))
      = natStr x ++ "." ++ natStr y ++ "." ++ natStr z ∧
    stripPrerelease (natStr x ++ "." ++ natStr y ++ "." ++ natStr z
        ++ "-" ++ pre)
      = natStr x ++ "." ++ natStr y ++ "." ++ natStr z ∧
    stripPrerelease (bumpPatchVersion (natStr x ++ "." ++ natStr y ++ "."
        ++ natStr z ++ "-" ++ pre))
      = natStr x ++ "." ++ natStr y ++ "." ++ natStr z := by
  have hcore := hyphen_not_mem_natCore x y z
  have hcr := coreRender_natTriple hx hy hz
  have hlit : ("-rc.1" : String) = "-rc." ++ "1" := by decide
  refine ⟨stripPrerelease_no_hyphen hcore, ?_,
    stripPrerelease_append hcore, ?_⟩
  · rw [bumpPatchVersion_no_hyphen hcore, hlit, ← String.append_assoc,
      stripPrerelease_core_rc _ (coreRender_no_hyphen _), hcr]
  · rw [bumpPatchVersion_append hcore]
    cases rcMatchDigits (firstHyphenSegment pre) with
    | some ds => rw [stripPrerelease_core_rc _ (coreRender_no_hyphen _), hcr]
    | none =>
      rw [hlit, ← String.append_assoc,
        stripPrerelease_core_rc _ (coreRender_no_hyphen _), hcr]

/-- Witness for the amended C6 on the spec scenario 1.1.0-rc.3. -/
theorem bump_preserves_core_triple_bounded_witness :
    stripPrerelease
        (bumpPatchVersion (natStr 1 ++ "." ++ natStr 1 ++ "." ++ natStr 0
          ++ "-" ++ "rc.3"))
      = natStr 1 ++ "." ++ natStr 1 ++ "." ++ natStr 0 :=
  (bump_preserves_core_triple_bounded 1 1 0 "rc.3"
    (by norm_num) (by norm_num) (by norm_num)).2.2.2

/-! ### Claim C7 -/

/-- C7: resolving a bump or final token mutates nothing: the record's
content and write counter are unchanged on every path, and the only
record access is the single read of the current version, skipped when a
truthy override is supplied. -/
theorem resolveVersion_bump_final_pure (codec : Codec)
    (extCalc : Calculator) (input : String) (ov : Option String) (w : World)
    (hcmd : jsToLower input = "bump" ∨ jsToLower input = "final") :
    ((resolveVersion codec extCalc input ov w).2).file = w.file ∧
    ((resolveVersion codec extCalc input ov w).2).writes = w.writes ∧
    ((resolveVersion codec extCalc input ov w).2).reads
      = (if truthy ov = true then w.reads else w.reads + 1) := by
  have hne : input.isEmpty = false := by
    cases hie : input.isEmpty
    · rfl
    · have h0 : input = "" := (String.isEmpty_iff input).mp hie
      subst h0
      rcases hcmd with h | h <;> exact absurd h (by decide)
  have hframe := getCurrentVersion_frame codec ov w
  have hreads := getCurrentVersion_reads codec ov w
  unfold resolveVersion
  rw [if_neg (by simp [hne])]
  cases hg : getCurrentVersion codec ov w with
  | mk out w1 =>
    rw [hg] at hframe hreads
    cases out with
    | thrown e => exact ⟨hframe.1, hframe.2, hreads⟩
    | exited n => exact ⟨hframe.1, hframe.2, hreads⟩
    | ok cv =>
      dsimp only
      rcases hcmd with h | h
      · rw [if_neg (by simp [h]), if_pos h]
        exact ⟨hframe.1, hframe.2, hreads⟩
      · rw [if_neg (by simp [h]), if_neg (by simp [h]), if_pos h]
        exact ⟨hframe.1, hframe.2, hreads⟩

/-- Witness for C7 at the bump token against the demo record. -/
theorem resolveVersion_bump_final_pure_witness :
    ((resolveVersion demoCodec okCalc "bump" none demoWorld).2).file
        = demoWorld.file ∧
    ((resolveVersion demoCodec okCalc "bump" none demoWorld).2).writes
        = demoWorld.writes :=
  ⟨(resolveVersion_bump_final_pure demoCodec okCalc "bump" none demoWorld
      (Or.inl (by decide))).1,
   (resolveVersion_bump_final_pure demoCodec okCalc "bump" none demoWorld
      (Or.inl (by decide))).2.1⟩

/-! ### Claim C8 -/

/-- C8: final — stripPrerelease — drops the prerelease entirely,
returning only the hyphen-free core, and is idempotent on every
string. -/
theorem final_drops_prerelease_and_idempotent :
    (∀ v : String,
      stripPrerelease (stripPrerelease v) = stripPrerelease v) ∧
    (∀ core pre : String, '-' ∉ core.data →
      stripPrerelease core = core ∧
      stripPrerelease (core ++ "-" ++ pre) = core) := by
  constructor
  · intro v
    exact stripPrerelease_no_hyphen (hyphen_not_mem_stripPrerelease v)
  · intro core pre h
    exact ⟨stripPrerelease_no_hyphen h, stripPrerelease_append h⟩

/-- Witness for C8 on the spec scenario 1.1.0-rc.3. -/
theorem final_drops_prerelease_and_idempotent_witness :
    stripPrerelease (stripPrerelease "1.1.0-rc.3")
        = stripPrerelease "1.1.0-rc.3" ∧
    stripPrerelease ("1.1.0" ++ "-" ++ "rc.3") = "1.1.0" :=
  ⟨final_drops_prerelease_and_idempotent.1 "1.1.0-rc.3",
   (final_drops_prerelease_and_idempotent.2 "1.1.0" "rc.3" (by decide)).2⟩

/-! ### Claim C9 -/

set_option maxRecDepth 8000 in
/-- C9 is refuted: on a 310-digit rc numeral, parseInt overflows the
double to Infinity, so bump returns the tag rc.Infinity — Infinity is
not a decimal numeral, so the tag is no positive integer N. -/
theorem bump_rc_tag_counterexample :
    bumpPatchVersion ("1.0.0-rc." ++ String.mk (List.replicate 310 '9'))
      = "1.0.0-rc.Infinity" ∧
    ("Infinity" : String).data.all Char.isDigit = false :=
  ⟨by decide, by decide⟩

/-- C9 (amended): every return value of bump carries an rc tag — it has
the shape core-rc.t with both the core and the tag free of hyphens; the
tag is the literal 1 in the no-prerelease and non-rc branches, and the
decimal numeral of the positive integer N+1 whenever the matched rc
numeral N satisfies N+1 below 2^53; for larger numerals the tag is the
JS double rendering and need not be an integer. -/
theorem bump_always_rc_amended (s : String) :
    ∃ core t, bumpPatchVersion s = core ++ "-rc." ++ t ∧
      '-' ∉ core.data ∧ '-' ∉ t.data ∧
      (rcMatchDigits ((jsSplit '-' s).getD 1 "") = none → t = "1") ∧
      (∀ ds, rcMatchDigits ((jsSplit '-' s).getD 1 "") = some ds →
        digitsVal ds.data + 1 < 2 ^ 53 →
        t = natStr (digitsVal ds.data + 1) ∧ 1 ≤ digitsVal ds.data + 1) := by
  obtain ⟨t, heq, hnone, hsome⟩ := bump_branch s
  refine ⟨coreRender ((jsSplit '-' s).headD ""), t, heq,
    coreRender_no_hyphen _, ?_, hnone, ?_⟩
  · cases hm : rcMatchDigits ((jsSplit '-' s).getD 1 "") with
    | none =>
      rw [hnone hm]
      decide
    | some ds =>
      rw [hsome ds hm]
      exact renderJsNum_no_hyphen _
  · intro ds hm hb
    rw [hsome ds hm, roundToDouble_of_lt (Nat.lt_of_succ_lt hb),
      jsAdd1_finite hb, renderJsNum_small hb]
    exact ⟨rfl, Nat.le_add_left 1 _⟩

/-- Witness for the amended C9, instantiated at the spec scenario
1.0.8-rc.1. -/
theorem bump_always_rc_amended_witness :
    ∃ core t, bumpPatchVersion "1.0.8-rc.1" = core ++ "-rc." ++ t ∧
      '-' ∉ core.data ∧ '-' ∉ t.data ∧
      (rcMatchDigits ((jsSplit '-' "1.0.8-rc.1").getD 1 "") = none →
        t = "1") ∧
      (∀ ds, rcMatchDigits ((jsSplit '-' "1.0.8-rc.1").getD 1 "") = some ds →
        digitsVal ds.data + 1 < 2 ^ 53 →
        t = natStr (digitsVal ds.data + 1) ∧ 1 ≤ digitsVal ds.data + 1) :=
  bump_always_rc_amended "1.0.8-rc.1"

/-! ### Claim C10 -/

/-- C10: a token that is none of the five symbolic commands (compared
case-insensitively) and passes validateSemver is returned verbatim in
the result's version field, with no canonicalization. -/
theorem explicit_version_returned_verbatim (codec : Codec)
    (extCalc : Calculator) (input : String) (ov : Option String)
    (w : World) (v : String) (w1 : World)
    (h1 : jsToLower input ≠ "major") (h2 : jsToLower input ≠ "minor")
    (h3 : jsToLower input ≠ "patch") (h4 : jsToLower input ≠ "bump")
    (h5 : jsToLower input ≠ "final")
    (hvalid : validateSemver input = true)
    (hg : getCurrentVersion codec ov w = (Outcome.ok v, w1)) :
    resolveVersion codec extCalc input ov w = (Outcome.ok ⟨v, input⟩, w1) := by
  have hne : input.isEmpty = false := by
    cases hie : input.isEmpty
    · rfl
    · have h0 : input = "" := (String.isEmpty_iff input).mp hie
      rw [h0] at hvalid
      exact absurd hvalid (by decide)
  unfold resolveVersion
  rw [if_neg (by simp [hne]), hg]
  dsimp only
  rw [if_neg (by simp [h1, h2, h3]), if_neg h4, if_neg h5, if_pos hvalid]

/-- Witness for C10: the valid token 01.2.3 keeps its leading zero in
the result. -/
theorem explicit_version_returned_verbatim_witness :
    validateSemver "01.2.3" = true ∧
    resolveVersion demoCodec okCalc "01.2.3" none demoWorld
      = (Outcome.ok ⟨"1.0.0", "01.2.3"⟩, ⟨some "1.0.0", 1, 0⟩) :=
  ⟨by decide,
   explicit_version_returned_verbatim demoCodec okCalc "01.2.3" none
     demoWorld "1.0.0" ⟨some "1.0.0", 1, 0⟩ (by decide) (by decide)
     (by decide) (by decide) (by decide) (by decide) (by decide)⟩

end VersionUpdater
